import Mathlib

/-!
Shallow embedding of the `db/migrations` subsystem of umakantv/go-utils
(`db/migrations/migrations.go` and the companion `CreateMigration` command),
together with proofs of the behavioural properties claimed for it.

The datastore (`database/sql` handle) and the filesystem are external
collaborators; they are modelled as explicit state and oracles:

* a SQL text is modelled as the list of its statements (`Stmt`); the driver
  executes the statements of one `db.Exec` call in order, each statement
  taking effect immediately (implicit per-statement commit).  The source
  never calls `Begin`/`Commit`/`Rollback`, so there is no surrounding
  transaction: statements executed before a failing one stay applied.
* the `schema_migrations` table is the `ledger` field of `DB`; `INSERT` can
  fail either on a primary-key duplicate or through an external datastore
  fault, modelled by the oracle `Env.insertFault`.
* `CREATE TABLE IF NOT EXISTS schema_migrations ...` can fail on an
  external datastore fault, modelled by `Env.createTableFault`.
* file system reads are modelled by `FS`: `entries` is the result of
  `ioutil.ReadDir` on the migrations directory (`none` = I/O error) and
  `content` the result of `ioutil.ReadFile` per path (`none` = read error).

Every externally visible I/O step of a run is logged in a trace of `Event`s,
which lets the theorems speak about what a run did and did not touch.
-/

/-- One statement of a migration file's SQL text, as the driver sees it:
either it executes successfully, producing an observable effect on the
database, or it fails with an error message. -/
inductive Stmt where
  | good (effect : String)
  | bad (msg : String)
deriving DecidableEq

/-- One entry of the directory listing returned by `ioutil.ReadDir`. -/
structure DirEntry where
  name : String
  isDir : Bool
deriving DecidableEq

/-- The filesystem oracle: the migrations directory listing and the content
of each file (already parsed into statements), `none` meaning an I/O error. -/
structure FS where
  entries : Option (List DirEntry)
  content : String → Option (List Stmt)

/-- The state of the datastore: whether `schema_migrations` exists, the rows
of `schema_migrations` (in insertion order), and the accumulated effects of
all successfully executed migration statements. -/
structure DB where
  tableCreated : Bool
  ledger : List String
  effects : List String
deriving DecidableEq

/-- External datastore faults: a fault of the `CREATE TABLE` statement and a
fault of the ledger `INSERT` for a given version (e.g. a lost connection). -/
structure Env where
  createTableFault : Option String
  insertFault : String → Option String

/-- Externally visible I/O steps of a run, in order. -/
inductive Event where
  | createTable
  | readDir
  | queryExists (version : String)
  | readFile (path : String)
  | execSql (path : String)
  | insertVersion (version : String)
deriving DecidableEq

/-- Errors of `runMigration`, mirroring the error returns of the source:
the `SELECT EXISTS` query failing (here: the ledger table is missing),
`ioutil.ReadFile` failing, `db.Exec` of the file failing, and the ledger
`INSERT` failing (externally or on the `version` primary key). -/
inductive RunErr where
  | noTable
  | readFailed (path : String)
  | execFailed (msg : String)
  | insertFailed (msg : String)
  | duplicateVersion (version : String)
deriving DecidableEq

/-- Errors of `Migrate`, mirroring its `fmt.Errorf` wrappers:
"failed to create migrations table: %w", "failed to get migration files: %w",
and "failed to run migration %s: %w" (which names the file and the cause). -/
inductive MigErr where
  | createTableFailed (cause : String)
  | readDirFailed
  | migrationFailed (file : String) (cause : RunErr)
deriving DecidableEq

/-- Result of `runMigration`: updated datastore, I/O trace, optional error. -/
structure RunOut where
  db : DB
  trace : List Event
  err : Option RunErr
deriving DecidableEq

/-- Result of `Migrate` / `runAll`. -/
structure MigOut where
  db : DB
  trace : List Event
  err : Option MigErr
deriving DecidableEq

/-! ### String helpers (Go `strings` / `path/filepath`), char-level -/

/-- Go `strings.HasSuffix`. -/
def hasSuffix (s suf : String) : Bool :=
  List.isSuffixOf suf.toList s.toList

/-- Go `strings.TrimSuffix`: drops `suf` from the end of `s` if present. -/
def trimSuffix (s suf : String) : String :=
  if hasSuffix s suf then
    String.mk (s.toList.take (s.toList.length - suf.toList.length))
  else s

/-- Last path component (Go `filepath.Base` for a path with no trailing
slash): the characters after the last separator. -/
def baseName (p : String) : String :=
  String.mk (p.toList.foldl (fun acc c => if c = '/' then [] else acc ++ [c]) [])

/-- Go `filepath.Join dir name` for a clean `dir` and a plain filename. -/
def joinPath (dir name : String) : String :=
  dir ++ "/" ++ name

/-- Lexicographic comparison of char lists (byte order of Go string
comparison; UTF-8 byte order agrees with code-point order). -/
def charsLe : List Char → List Char → Bool
  | [], _ => true
  | _ :: _, [] => false
  | a :: as, b :: bs => if a < b then true else if b < a then false else charsLe as bs

/-- Go string `<=` (the order used by `sort.Strings`). -/
def strLe (a b : String) : Bool :=
  charsLe a.toList b.toList

/-- Insert into a `strLe`-sorted list, keeping it sorted. -/
def insertSorted (x : String) : List String → List String
  | [] => [x]
  | y :: ys => if strLe x y then x :: y :: ys else y :: insertSorted x ys

/-- Ascending lexicographic sort of strings.  `sort.Strings` sorts by the
total order `strLe`; since strings with `strLe a b` and `strLe b a` are
equal, every correct sort produces this same list. -/
def sortStrings (l : List String) : List String :=
  l.foldr insertSorted []

/-! ### The embedded source functions -/

/-- Derivation of a file's version in `runMigration`:
`version := strings.TrimSuffix(filepath.Base(filePath), ".sql")`. -/
def versionOf (filePath : String) : String :=
  trimSuffix (baseName filePath) ".sql"

/-- `createMigrationsTable`: `CREATE TABLE IF NOT EXISTS schema_migrations
(version VARCHAR(255) PRIMARY KEY, applied_at TIMESTAMP ...)`; returns the
datastore error, if any. -/
def createMigrationsTable (env : Env) (db : DB) : DB × Option String :=
  match env.createTableFault with
  | some m => (db, some m)
  | none => ({ db with tableCreated := true }, none)

/-- `getMigrationFiles`: `ioutil.ReadDir`, keep non-directory entries whose
name ends in `.sql`, join each with the directory, sort.  `none` models the
`ReadDir` error return.  No validation of any kind is performed on names. -/
def getMigrationFiles (dir : String) (fs : FS) : Option (List String) :=
  match fs.entries with
  | none => none
  | some l =>
      some (sortStrings ((l.filter fun f => !f.isDir && hasSuffix f.name ".sql").map
        fun f => joinPath dir f.name))

/-- The driver executing the statements of one `db.Exec(content)` call:
statements run in order, each effect is appended immediately (implicit
per-statement commit; the source opens no transaction), and the first
failing statement stops execution and yields its error. -/
def execStmts (effects : List String) : List Stmt → List String × Option String
  | [] => (effects, none)
  | .good e :: rest => execStmts (effects ++ [e]) rest
  | .bad m :: _ => (effects, some m)

/-- The ledger `INSERT INTO schema_migrations (version) VALUES (?)`:
fails on an external fault or on a duplicate primary key, otherwise
appends the row. -/
def insertVersionRow (env : Env) (db : DB) (v : String) : DB × Option RunErr :=
  match env.insertFault v with
  | some m => (db, some (.insertFailed m))
  | none =>
      if v ∈ db.ledger then (db, some (.duplicateVersion v))
      else ({ db with ledger := db.ledger ++ [v] }, none)

/-- `runMigration`: derive the version, check the ledger (skip if present),
read the file, execute its SQL, record the version.  Mirrors the source's
early returns; the trace records each I/O step actually performed. -/
def runMigration (env : Env) (fs : FS) (db : DB) (filePath : String) : RunOut :=
  let v := versionOf filePath
  if !db.tableCreated then
    ⟨db, [.queryExists v], some .noTable⟩
  else if v ∈ db.ledger then
    ⟨db, [.queryExists v], none⟩
  else
    match fs.content filePath with
    | none => ⟨db, [.queryExists v, .readFile filePath], some (.readFailed filePath)⟩
    | some stmts =>
        match execStmts db.effects stmts with
        | (effs, some m) =>
            ⟨{ db with effects := effs },
             [.queryExists v, .readFile filePath, .execSql filePath],
             some (.execFailed m)⟩
        | (effs, none) =>
            match insertVersionRow env { db with effects := effs } v with
            | (db', some e) =>
                ⟨db', [.queryExists v, .readFile filePath, .execSql filePath, .insertVersion v],
                 some e⟩
            | (db', none) =>
                ⟨db', [.queryExists v, .readFile filePath, .execSql filePath, .insertVersion v],
                 none⟩

/-- The `for _, file := range files` loop of `Migrate`: run each file in
order, stopping at the first error and wrapping it with the file name. -/
def runAll (env : Env) (fs : FS) (db : DB) : List String → MigOut
  | [] => ⟨db, [], none⟩
  | f :: rest =>
      let r := runMigration env fs db f
      match r.err with
      | some e => ⟨r.db, r.trace, some (.migrationFailed f e)⟩
      | none =>
          let k := runAll env fs r.db rest
          ⟨k.db, r.trace ++ k.trace, k.err⟩

/-- `Migrate`: ensure the ledger table, list the migration files, run them
in order.  Each error return is wrapped as in the source. -/
def Migrate (env : Env) (fs : FS) (db : DB) (dir : String) : MigOut :=
  match createMigrationsTable env db with
  | (_, some m) => ⟨db, [.createTable], some (.createTableFailed m)⟩
  | (db1, none) =>
      match getMigrationFiles dir fs with
      | none => ⟨db1, [.createTable, .readDir], some .readDirFailed⟩
      | some files =>
          let k := runAll env fs db1 files
          ⟨k.db, .createTable :: .readDir :: k.trace, k.err⟩

/-! ### Trace projections -/

/-- Paths of the `db.Exec(content)` calls in a trace: the migration SQL
actually executed. -/
def execPaths (tr : List Event) : List String :=
  tr.filterMap fun e => match e with | .execSql p => some p | _ => none

/-- Paths of the `ioutil.ReadFile` calls in a trace. -/
def readPaths (tr : List Event) : List String :=
  tr.filterMap fun e => match e with | .readFile p => some p | _ => none

/-! ### The migration filename pattern and the `CreateMigration` command -/

/-- Character class `[A-Za-z0-9_]`. -/
def isWordChar (c : Char) : Bool :=
  c.isAlphanum || c = '_'

/-- The name check of `CreateMigration`: Go regexp `^[a-zA-Z0-9_]+$`. -/
def nameOk (s : String) : Bool :=
  s.toList.length > 0 && s.toList.all isWordChar

/-- Modelled from the spec: the constant `migrationFilePattern` of package
`migrations` is referenced by `CreateMigration` but its defining file is not
in the source tree; the spec gives the pattern `^\d{14}_[A-Za-z0-9_]+\.sql$`.
This predicate decides that regular expression: 14 digits, an underscore, a
nonempty word-character name, and the literal suffix `.sql`. -/
def matchesMigrationFilePattern (s : String) : Bool :=
  let l := s.toList
  let ts := l.take 14
  let rest := l.drop 14
  ts.length = 14 && ts.all Char.isDigit &&
    match rest with
    | c :: more =>
        let nm := more.take (more.length - 4)
        let ext := more.drop (more.length - 4)
        c = '_' && (ext = ['.', 's', 'q', 'l'] && nm.length > 0 && nm.all isWordChar)
    | [] => false

/-- Go `strings.TrimSpace` (leading/trailing whitespace removed). -/
def trimSpace (s : String) : String :=
  String.mk (((s.toList.dropWhile Char.isWhitespace).reverse.dropWhile
    Char.isWhitespace).reverse)

/-- Outcome of `CreateMigration`: each `os.Exit(1)` path of the source is a
distinct error outcome, and `created p` is the `os.WriteFile` of path `p`. -/
inductive CreateOutcome where
  | usageErr
  | spaceErr
  | charErr
  | formatErr
  | existsErr (path : String)
  | created (path : String)
deriving DecidableEq

/-- `CreateMigration` (pure core): `timestamp` is the result of
`time.Now().UTC().Format("20060102150405")`, supplied as an oracle;
`fileExists` is the `os.Stat` oracle.  `os.MkdirAll` and `os.WriteFile` are
taken to succeed (their failures only change the error message printed). -/
def CreateMigration (nameFlag dirFlag timestamp : String)
    (fileExists : String → Bool) : CreateOutcome :=
  if nameFlag = "" then .usageErr
  else
    let name := trimSpace nameFlag
    if name ≠ nameFlag then .spaceErr
    else if !nameOk name then .charErr
    else
      let filename := timestamp ++ "_" ++ name ++ ".sql"
      let fullPath := joinPath dirFlag filename
      if !matchesMigrationFilePattern filename then .formatErr
      else if fileExists fullPath then .existsErr fullPath
      else .created fullPath

/-! ### Timestamp prefixes (chronological order) -/

/-- Numeric value of a most-significant-first digit string. -/
def digitsVal : List Char → Nat
  | [] => 0
  | c :: cs => (c.toNat - 48) * 10 ^ cs.length + digitsVal cs

/-- The 14-digit timestamp prefix of a (validly named) migration filename,
as a number. -/
def tsNum (s : String) : Nat :=
  digitsVal (s.toList.take 14)

/-! ### Order lemmas for `charsLe` / `strLe` -/

theorem charsLe_refl : ∀ l : List Char, charsLe l l = true
  | [] => rfl
  | a :: as => by simp [charsLe, lt_irrefl]; exact charsLe_refl as

theorem charsLe_total : ∀ l1 l2 : List Char, charsLe l1 l2 = true ∨ charsLe l2 l1 = true
  | [], _ => .inl rfl
  | _ :: _, [] => .inr rfl
  | a :: as, b :: bs => by
    rcases lt_trichotomy a b with h | h | h
    · left; simp [charsLe, h]
    · subst h
      simp [charsLe, lt_irrefl]
      exact charsLe_total as bs
    · right; simp [charsLe, h]

theorem charsLe_trans : ∀ l1 l2 l3 : List Char,
    charsLe l1 l2 = true → charsLe l2 l3 = true → charsLe l1 l3 = true
  | [], _, _ => by intro _ _; rfl
  | _ :: _, [], _ => by intro h _; simp [charsLe] at h
  | _ :: _, _ :: _, [] => by intro _ h; simp [charsLe] at h
  | a :: as, b :: bs, c :: cs => by
    intro h1 h2
    by_cases hab : a < b
    · by_cases hbc : b < c
      · simp [charsLe, lt_trans hab hbc]
      · by_cases hcb : c < b
        · simp [charsLe, hbc, hcb] at h2
        · have hbc' : b = c := le_antisymm (not_lt.mp hcb) (not_lt.mp hbc)
          subst hbc'
          simp [charsLe, hab]
    · by_cases hba : b < a
      · simp [charsLe, hab, hba] at h1
      · have hab' : a = b := le_antisymm (not_lt.mp hba) (not_lt.mp hab)
        subst hab'
        simp [charsLe, lt_irrefl] at h1
        by_cases hac : a < c
        · simp [charsLe, hac]
        · by_cases hca : c < a
          · simp [charsLe, hac, hca] at h2
          · have hac' : a = c := le_antisymm (not_lt.mp hca) (not_lt.mp hac)
            subst hac'
            simp [charsLe, lt_irrefl] at h2 ⊢
            exact charsLe_trans as bs cs h1 h2

theorem charsLe_append_left : ∀ (p a b : List Char),
    charsLe (p ++ a) (p ++ b) = charsLe a b
  | [], _, _ => rfl
  | c :: p, a, b => by
    simp [charsLe, lt_irrefl]
    exact charsLe_append_left p a b

theorem strLe_total (a b : String) : strLe a b = true ∨ strLe b a = true :=
  charsLe_total a.toList b.toList

theorem strLe_trans {a b c : String} (h1 : strLe a b = true) (h2 : strLe b c = true) :
    strLe a c = true :=
  charsLe_trans a.toList b.toList c.toList h1 h2

theorem strLe_of_not_strLe {a b : String} (h : strLe a b = false) : strLe b a = true := by
  rcases strLe_total a b with h' | h'
  · rw [h'] at h; cases h
  · exact h'

/-- Order of joined paths with a common directory prefix agrees with the
order of the file names. -/
theorem strLe_joinPath (dir a b : String) :
    strLe (joinPath dir a) (joinPath dir b) = strLe a b := by
  have ha : (joinPath dir a).toList = (dir ++ "/").toList ++ a.toList := by
    simp [joinPath, String.toList]
  have hb : (joinPath dir b).toList = (dir ++ "/").toList ++ b.toList := by
    simp [joinPath, String.toList]
  rw [strLe, ha, hb, charsLe_append_left]; rfl

/-! ### Sorting lemmas -/

theorem insertSorted_perm (x : String) (l : List String) :
    List.Perm (insertSorted x l) (x :: l) := by
  induction l with
  | nil => exact List.Perm.refl _
  | cons y ys ih =>
    cases hxy : strLe x y
    · simp only [insertSorted, hxy, Bool.false_eq_true, if_false]
      exact (ih.cons y).trans (List.Perm.swap x y ys)
    · simp only [insertSorted, hxy, if_true]
      exact List.Perm.refl _

theorem mem_insertSorted {a x : String} {l : List String} :
    a ∈ insertSorted x l ↔ a = x ∨ a ∈ l := by
  rw [(insertSorted_perm x l).mem_iff, List.mem_cons]

theorem sortStrings_perm (l : List String) : List.Perm (sortStrings l) l := by
  induction l with
  | nil => exact List.Perm.refl _
  | cons x l ih => exact (insertSorted_perm x (sortStrings l)).trans (ih.cons x)

theorem mem_sortStrings {a : String} {l : List String} :
    a ∈ sortStrings l ↔ a ∈ l :=
  (sortStrings_perm l).mem_iff

theorem pairwise_insertSorted {x : String} {l : List String}
    (h : l.Pairwise (fun a b => strLe a b = true)) :
    (insertSorted x l).Pairwise (fun a b => strLe a b = true) := by
  induction l with
  | nil => simp [insertSorted]
  | cons y ys ih =>
    rcases List.pairwise_cons.mp h with ⟨hy, hys⟩
    cases hxy : strLe x y
    · simp only [insertSorted, hxy, Bool.false_eq_true, if_false]
      refine List.pairwise_cons.mpr ⟨?_, ih hys⟩
      intro z hz
      rcases mem_insertSorted.mp hz with rfl | hz'
      · exact strLe_of_not_strLe hxy
      · exact hy z hz'
    · simp only [insertSorted, hxy, if_true]
      refine List.pairwise_cons.mpr ⟨?_, h⟩
      intro z hz
      rcases List.mem_cons.mp hz with rfl | hz'
      · exact hxy
      · exact strLe_trans hxy (hy z hz')

theorem sortStrings_sorted : ∀ l : List String,
    (sortStrings l).Pairwise (fun a b => strLe a b = true)
  | [] => List.Pairwise.nil
  | _ :: l => pairwise_insertSorted (sortStrings_sorted l)

/-! ### Behaviour of `execStmts` and `insertVersionRow` -/

/-- Executing statements from any starting effect list appends the same
effects and yields the same error as executing them from scratch. -/
theorem execStmts_shift (effs : List String) (stmts : List Stmt) :
    execStmts effs stmts = (effs ++ (execStmts [] stmts).1, (execStmts [] stmts).2) := by
  induction stmts generalizing effs with
  | nil => simp [execStmts]
  | cons s rest ih =>
    cases s with
    | good e =>
      rw [execStmts, ih (effs ++ [e])]
      rw [show execStmts [] (Stmt.good e :: rest) = execStmts [e] rest from rfl, ih [e]]
      simp
    | bad m => simp [execStmts]

/-- Complete case analysis of `runMigration`: exactly one of six source
paths is taken (missing ledger table, skip, read error, execution error,
ledger-insert fault, success). -/
theorem runMigration_spec (env : Env) (fs : FS) (db : DB) (f : String) :
    (db.tableCreated = false ∧
      runMigration env fs db f = ⟨db, [.queryExists (versionOf f)], some .noTable⟩) ∨
    (db.tableCreated = true ∧ versionOf f ∈ db.ledger ∧
      runMigration env fs db f = ⟨db, [.queryExists (versionOf f)], none⟩) ∨
    (db.tableCreated = true ∧ versionOf f ∉ db.ledger ∧ fs.content f = none ∧
      runMigration env fs db f =
        ⟨db, [.queryExists (versionOf f), .readFile f], some (.readFailed f)⟩) ∨
    (∃ stmts m, db.tableCreated = true ∧ versionOf f ∉ db.ledger ∧
      fs.content f = some stmts ∧ (execStmts db.effects stmts).2 = some m ∧
      runMigration env fs db f =
        ⟨{ db with effects := (execStmts db.effects stmts).1 },
         [.queryExists (versionOf f), .readFile f, .execSql f], some (.execFailed m)⟩) ∨
    (∃ stmts m, db.tableCreated = true ∧ versionOf f ∉ db.ledger ∧
      fs.content f = some stmts ∧ (execStmts db.effects stmts).2 = none ∧
      env.insertFault (versionOf f) = some m ∧
      runMigration env fs db f =
        ⟨{ db with effects := (execStmts db.effects stmts).1 },
         [.queryExists (versionOf f), .readFile f, .execSql f, .insertVersion (versionOf f)],
         some (.insertFailed m)⟩) ∨
    (∃ stmts, db.tableCreated = true ∧ versionOf f ∉ db.ledger ∧
      fs.content f = some stmts ∧ (execStmts db.effects stmts).2 = none ∧
      env.insertFault (versionOf f) = none ∧
      runMigration env fs db f =
        ⟨{ db with ledger := db.ledger ++ [versionOf f],
                   effects := (execStmts db.effects stmts).1 },
         [.queryExists (versionOf f), .readFile f, .execSql f, .insertVersion (versionOf f)],
         none⟩) := by
  by_cases ht : db.tableCreated = true
  · by_cases hm : versionOf f ∈ db.ledger
    · refine .inr (.inl ⟨ht, hm, ?_⟩)
      simp [runMigration, ht, hm]
    · cases hc : fs.content f with
      | none =>
        refine .inr (.inr (.inl ⟨ht, hm, rfl, ?_⟩))
        simp [runMigration, ht, hm, hc]
      | some stmts =>
        rcases hex : execStmts db.effects stmts with ⟨effs, eo⟩
        cases eo with
        | some m =>
          refine .inr (.inr (.inr (.inl ⟨stmts, m, ht, hm, rfl, ?_, ?_⟩)))
          · rw [hex]
          · rw [hex]
            simp [runMigration, ht, hm, hc, hex]
        | none =>
          cases hins : env.insertFault (versionOf f) with
          | some m =>
            refine .inr (.inr (.inr (.inr (.inl ⟨stmts, m, ht, hm, rfl, ?_, rfl, ?_⟩))))
            · rw [hex]
            · rw [hex]
              simp [runMigration, ht, hm, hc, hex, insertVersionRow, hins]
          | none =>
            refine .inr (.inr (.inr (.inr (.inr ⟨stmts, ht, hm, rfl, ?_, rfl, ?_⟩))))
            · rw [hex]
            · rw [hex]
              simp [runMigration, ht, hm, hc, hex, insertVersionRow, hins]
  · have ht' : db.tableCreated = false := by simpa using ht
    refine .inl ⟨ht', ?_⟩
    simp [runMigration, ht']

/-! ### Corollaries about a single `runMigration` -/

theorem runMigration_tableCreated (env : Env) (fs : FS) (db : DB) (f : String) :
    (runMigration env fs db f).db.tableCreated = db.tableCreated := by
  rcases runMigration_spec env fs db f with ⟨_, h⟩ | ⟨_, _, h⟩ | ⟨_, _, _, h⟩ |
    ⟨s, m, _, _, _, _, h⟩ | ⟨s, m, _, _, _, _, _, h⟩ | ⟨s, _, _, _, _, _, h⟩ <;> rw [h]

theorem runMigration_ledger_of_err {env : Env} {fs : FS} {db : DB} {f : String} {e : RunErr}
    (h : (runMigration env fs db f).err = some e) :
    (runMigration env fs db f).db.ledger = db.ledger := by
  rcases runMigration_spec env fs db f with ⟨_, hr⟩ | ⟨_, _, hr⟩ | ⟨_, _, _, hr⟩ |
    ⟨s, m, _, _, _, _, hr⟩ | ⟨s, m, _, _, _, _, _, hr⟩ | ⟨s, _, _, _, _, _, hr⟩ <;>
    rw [hr] <;> first | rfl | (rw [hr] at h; cases h)

theorem runMigration_ok_mem {env : Env} {fs : FS} {db : DB} {f : String}
    (h : (runMigration env fs db f).err = none) :
    versionOf f ∈ (runMigration env fs db f).db.ledger := by
  rcases runMigration_spec env fs db f with ⟨_, hr⟩ | ⟨_, hm, hr⟩ | ⟨_, _, _, hr⟩ |
    ⟨s, m, _, _, _, _, hr⟩ | ⟨s, m, _, _, _, _, _, hr⟩ | ⟨s, _, _, _, _, _, hr⟩ <;>
    rw [hr] at h ⊢ <;> simp_all

theorem runMigration_ledger_mono {env : Env} {fs : FS} {db : DB} {f v : String}
    (hv : v ∈ db.ledger) : v ∈ (runMigration env fs db f).db.ledger := by
  rcases runMigration_spec env fs db f with ⟨_, hr⟩ | ⟨_, _, hr⟩ | ⟨_, _, _, hr⟩ |
    ⟨s, m, _, _, _, _, hr⟩ | ⟨s, m, _, _, _, _, _, hr⟩ | ⟨s, _, _, _, _, _, hr⟩ <;>
    rw [hr] <;> simp [hv]

theorem runMigration_ledger_sub {env : Env} {fs : FS} {db : DB} {f v : String}
    (hv : v ∈ (runMigration env fs db f).db.ledger) : v ∈ db.ledger ∨ v = versionOf f := by
  rcases runMigration_spec env fs db f with ⟨_, hr⟩ | ⟨_, _, hr⟩ | ⟨_, _, _, hr⟩ |
    ⟨s, m, _, _, _, _, hr⟩ | ⟨s, m, _, _, _, _, _, hr⟩ | ⟨s, _, _, _, _, _, hr⟩ <;>
    rw [hr] at hv <;> simp at hv <;> tauto

theorem runMigration_execPaths (env : Env) (fs : FS) (db : DB) (f : String) :
    List.Sublist (execPaths (runMigration env fs db f).trace) [f] := by
  rcases runMigration_spec env fs db f with ⟨_, hr⟩ | ⟨_, _, hr⟩ | ⟨_, _, _, hr⟩ |
    ⟨s, m, _, _, _, _, hr⟩ | ⟨s, m, _, _, _, _, _, hr⟩ | ⟨s, _, _, _, _, _, hr⟩ <;>
    rw [hr] <;> simp [execPaths]

theorem runMigration_readPaths (env : Env) (fs : FS) (db : DB) (f : String) :
    List.Sublist (readPaths (runMigration env fs db f).trace) [f] := by
  rcases runMigration_spec env fs db f with ⟨_, hr⟩ | ⟨_, _, hr⟩ | ⟨_, _, _, hr⟩ |
    ⟨s, m, _, _, _, _, hr⟩ | ⟨s, m, _, _, _, _, _, hr⟩ | ⟨s, _, _, _, _, _, hr⟩ <;>
    rw [hr] <;> simp [readPaths]

/-- A file whose version is not yet in the ledger is genuinely attempted:
the run checks the ledger and then reads the file. -/
theorem runMigration_attempt_trace {env : Env} {fs : FS} {db : DB} {f : String}
    (ht : db.tableCreated = true) (hm : versionOf f ∉ db.ledger) :
    ∃ t, (runMigration env fs db f).trace =
      .queryExists (versionOf f) :: .readFile f :: t := by
  rcases runMigration_spec env fs db f with ⟨h1, hr⟩ | ⟨_, h2, hr⟩ | ⟨_, _, _, hr⟩ |
    ⟨s, m, _, _, _, _, hr⟩ | ⟨s, m, _, _, _, _, _, hr⟩ | ⟨s, _, _, _, _, _, hr⟩
  · rw [h1] at ht; cases ht
  · exact absurd h2 hm
  · exact ⟨_, by rw [hr]⟩
  · exact ⟨_, by rw [hr]⟩
  · exact ⟨_, by rw [hr]⟩
  · exact ⟨_, by rw [hr]⟩

/-! ### Lemmas about the `Migrate` loop -/

theorem runAll_cons_err {env : Env} {fs : FS} {db : DB} {f : String} {rest : List String}
    {e : RunErr} (h : (runMigration env fs db f).err = some e) :
    runAll env fs db (f :: rest) =
      ⟨(runMigration env fs db f).db, (runMigration env fs db f).trace,
       some (.migrationFailed f e)⟩ := by
  simp [runAll, h]

theorem runAll_cons_ok {env : Env} {fs : FS} {db : DB} {f : String} {rest : List String}
    (h : (runMigration env fs db f).err = none) :
    runAll env fs db (f :: rest) =
      ⟨(runAll env fs (runMigration env fs db f).db rest).db,
       (runMigration env fs db f).trace ++ (runAll env fs (runMigration env fs db f).db rest).trace,
       (runAll env fs (runMigration env fs db f).db rest).err⟩ := by
  simp [runAll, h]

theorem runAll_tableCreated (env : Env) (fs : FS) (files : List String) :
    ∀ db : DB, (runAll env fs db files).db.tableCreated = db.tableCreated := by
  induction files with
  | nil => intro db; rfl
  | cons f rest ih =>
    intro db
    cases herr : (runMigration env fs db f).err with
    | some e => rw [runAll_cons_err herr]; exact runMigration_tableCreated env fs db f
    | none =>
      rw [runAll_cons_ok herr]
      show (runAll env fs (runMigration env fs db f).db rest).db.tableCreated = _
      rw [ih, runMigration_tableCreated]

theorem runAll_ledger_mono (env : Env) (fs : FS) (files : List String) {v : String} :
    ∀ db : DB, v ∈ db.ledger → v ∈ (runAll env fs db files).db.ledger := by
  induction files with
  | nil => intro db hv; exact hv
  | cons f rest ih =>
    intro db hv
    cases herr : (runMigration env fs db f).err with
    | some e => rw [runAll_cons_err herr]; exact runMigration_ledger_mono hv
    | none => rw [runAll_cons_ok herr]; exact ih _ (runMigration_ledger_mono hv)

theorem runAll_ok_mem (env : Env) (fs : FS) (files : List String) :
    ∀ db : DB, (runAll env fs db files).err = none →
      ∀ f ∈ files, versionOf f ∈ (runAll env fs db files).db.ledger := by
  induction files with
  | nil => intro db _ f hf; cases hf
  | cons g rest ih =>
    intro db h f hf
    cases herr : (runMigration env fs db g).err with
    | some e => rw [runAll_cons_err herr] at h; cases h
    | none =>
      rw [runAll_cons_ok herr] at h ⊢
      rcases List.mem_cons.mp hf with rfl | hf'
      · exact runAll_ledger_mono env fs rest _ (runMigration_ok_mem herr)
      · exact ih _ h f hf'

theorem runAll_ledger_sub (env : Env) (fs : FS) (files : List String) {v : String} :
    ∀ db : DB, v ∈ (runAll env fs db files).db.ledger →
      v ∈ db.ledger ∨ v ∈ files.map versionOf := by
  induction files with
  | nil => intro db hv; exact .inl hv
  | cons f rest ih =>
    intro db hv
    cases herr : (runMigration env fs db f).err with
    | some e =>
      rw [runAll_cons_err herr] at hv
      rcases runMigration_ledger_sub hv with h | h
      · exact .inl h
      · exact .inr (by simp [h])
    | none =>
      rw [runAll_cons_ok herr] at hv
      rcases ih _ hv with h | h
      · rcases runMigration_ledger_sub h with h' | h'
        · exact .inl h'
        · exact .inr (by simp [h'])
      · exact .inr (by simp [h])

theorem runAll_skip_all (env : Env) (fs : FS) (files : List String) :
    ∀ db : DB, db.tableCreated = true → (∀ f ∈ files, versionOf f ∈ db.ledger) →
      runAll env fs db files =
        ⟨db, files.map (fun f => .queryExists (versionOf f)), none⟩ := by
  induction files with
  | nil => intro db _ _; rfl
  | cons f rest ih =>
    intro db ht hall
    have hskip : runMigration env fs db f = ⟨db, [.queryExists (versionOf f)], none⟩ := by
      rcases runMigration_spec env fs db f with ⟨h1, hr⟩ | ⟨_, _, hr⟩ | ⟨_, h2, _, hr⟩ |
        ⟨s, m, _, h2, _, _, hr⟩ | ⟨s, m, _, h2, _, _, _, hr⟩ | ⟨s, _, h2, _, _, _, hr⟩
      · rw [h1] at ht; cases ht
      · exact hr
      all_goals exact absurd (hall f (List.mem_cons_self f rest)) h2
    have herr : (runMigration env fs db f).err = none := by rw [hskip]
    rw [runAll_cons_ok herr, hskip]
    rw [ih db ht (fun g hg => hall g (List.mem_cons_of_mem f hg))]
    rfl

theorem runAll_execPaths (env : Env) (fs : FS) (files : List String) :
    ∀ db : DB, List.Sublist (execPaths (runAll env fs db files).trace) files := by
  induction files with
  | nil => intro db; exact List.nil_sublist _
  | cons f rest ih =>
    intro db
    cases herr : (runMigration env fs db f).err with
    | some e =>
      rw [runAll_cons_err herr]
      exact (runMigration_execPaths env fs db f).trans
        (List.Sublist.cons₂ f (List.nil_sublist rest))
    | none =>
      rw [runAll_cons_ok herr]
      show List.Sublist (execPaths (_ ++ _)) _
      rw [show execPaths ((runMigration env fs db f).trace ++
            (runAll env fs (runMigration env fs db f).db rest).trace) =
          execPaths (runMigration env fs db f).trace ++
            execPaths (runAll env fs (runMigration env fs db f).db rest).trace from
        List.filterMap_append _ _ _]
      exact List.Sublist.append (runMigration_execPaths env fs db f) (ih _)

theorem runAll_append_ok (env : Env) (fs : FS) (xs ys : List String) :
    ∀ db : DB, (runAll env fs db xs).err = none →
      runAll env fs db (xs ++ ys) =
        ⟨(runAll env fs (runAll env fs db xs).db ys).db,
         (runAll env fs db xs).trace ++ (runAll env fs (runAll env fs db xs).db ys).trace,
         (runAll env fs (runAll env fs db xs).db ys).err⟩ := by
  induction xs with
  | nil => intro db _; simp [runAll]
  | cons x xs ih =>
    intro db h
    cases herr : (runMigration env fs db x).err with
    | some e => rw [runAll_cons_err herr] at h; cases h
    | none =>
      rw [runAll_cons_ok herr] at h
      rw [List.cons_append, runAll_cons_ok herr, ih _ h, runAll_cons_ok herr]
      simp [List.append_assoc]

theorem set_tableCreated_eq {db : DB} (h : db.tableCreated = true) :
    { db with tableCreated := true } = db := by
  cases db; simp_all

theorem runMigration_skip {env : Env} {fs : FS} {db : DB} {f : String}
    (ht : db.tableCreated = true) (hm : versionOf f ∈ db.ledger) :
    runMigration env fs db f = ⟨db, [.queryExists (versionOf f)], none⟩ := by
  simp [runMigration, ht, hm]

theorem runMigration_err_not_mem {env : Env} {fs : FS} {db : DB} {f : String} {e : RunErr}
    (ht : db.tableCreated = true) (h : (runMigration env fs db f).err = some e) :
    versionOf f ∉ db.ledger := by
  intro hm
  rw [runMigration_skip ht hm] at h
  cases h

theorem runMigration_exec_trace {env : Env} {fs : FS} {db : DB} {f : String} {stmts : List Stmt}
    (ht : db.tableCreated = true) (hm : versionOf f ∉ db.ledger)
    (hc : fs.content f = some stmts) :
    ∃ t, (runMigration env fs db f).trace =
      .queryExists (versionOf f) :: .readFile f :: .execSql f :: t := by
  rcases runMigration_spec env fs db f with ⟨h1, hr⟩ | ⟨_, h2, hr⟩ | ⟨_, _, h3, hr⟩ |
    ⟨s, m, _, _, _, _, hr⟩ | ⟨s, m, _, _, _, _, _, hr⟩ | ⟨s, _, _, _, _, _, hr⟩
  · rw [h1] at ht; cases ht
  · exact absurd h2 hm
  · rw [h3] at hc; cases hc
  · exact ⟨_, by rw [hr]⟩
  · exact ⟨_, by rw [hr]⟩
  · exact ⟨_, by rw [hr]⟩

/-! ### Unfolding `Migrate` by the outcome of its first two steps -/

theorem Migrate_createTable_err {env : Env} (fs : FS) (db : DB) (dir : String) {m : String}
    (hct : env.createTableFault = some m) :
    Migrate env fs db dir = ⟨db, [.createTable], some (.createTableFailed m)⟩ := by
  simp [Migrate, createMigrationsTable, hct]

theorem Migrate_readDir_err {env : Env} {fs : FS} (db : DB) (dir : String)
    (hct : env.createTableFault = none) (hg : getMigrationFiles dir fs = none) :
    Migrate env fs db dir =
      ⟨{ db with tableCreated := true }, [.createTable, .readDir], some .readDirFailed⟩ := by
  simp [Migrate, createMigrationsTable, hct, hg]

theorem Migrate_run {env : Env} {fs : FS} (db : DB) {dir : String} {files : List String}
    (hct : env.createTableFault = none) (hg : getMigrationFiles dir fs = some files) :
    Migrate env fs db dir =
      ⟨(runAll env fs { db with tableCreated := true } files).db,
       .createTable :: .readDir :: (runAll env fs { db with tableCreated := true } files).trace,
       (runAll env fs { db with tableCreated := true } files).err⟩ := by
  simp [Migrate, createMigrationsTable, hct, hg]

/-! ### Claim theorems -/

/-- C7: if creating the `schema_migrations` ledger table fails, `Migrate`
returns the wrapped error immediately, the datastore is unchanged, and no
migration file is enumerated (no directory read), validated, read or
applied. -/
theorem c7_create_table_failure (env : Env) (fs : FS) (db : DB) (dir m : String)
    (h : env.createTableFault = some m) :
    (Migrate env fs db dir).err = some (.createTableFailed m) ∧
    (Migrate env fs db dir).db = db ∧
    Event.readDir ∉ (Migrate env fs db dir).trace ∧
    readPaths (Migrate env fs db dir).trace = [] ∧
    execPaths (Migrate env fs db dir).trace = [] := by
  rw [Migrate_createTable_err fs db dir h]
  refine ⟨rfl, rfl, ?_, rfl, rfl⟩
  simp

/-- Witness for C7 at a concrete faulty datastore. -/
theorem c7_witness :
    (Migrate ⟨some "no permission", fun _ => none⟩ ⟨some [], fun _ => none⟩
      ⟨false, [], []⟩ "migrations").err =
      some (.createTableFailed "no permission") :=
  (c7_create_table_failure ⟨some "no permission", fun _ => none⟩ ⟨some [], fun _ => none⟩
    ⟨false, [], []⟩ "migrations" "no permission" rfl).1

/-- C10: for a file whose derived version is already in the ledger,
`runMigration` succeeds without reading the file and without executing any
SQL, leaves the datastore unchanged, and its result does not depend on the
filesystem at all (the file may be unreadable or changed). -/
theorem c10_skip_no_read (env : Env) (fs : FS) (db : DB) (f : String)
    (ht : db.tableCreated = true) (hm : versionOf f ∈ db.ledger) :
    (runMigration env fs db f).err = none ∧
    (runMigration env fs db f).db = db ∧
    readPaths (runMigration env fs db f).trace = [] ∧
    execPaths (runMigration env fs db f).trace = [] ∧
    ∀ fs' : FS, runMigration env fs' db f = runMigration env fs db f := by
  rw [runMigration_skip ht hm]
  refine ⟨rfl, rfl, rfl, rfl, fun fs' => ?_⟩
  rw [runMigration_skip ht hm]

/-- Witness for C10: an already-recorded version is skipped even though its
file is unreadable in the current filesystem. -/
theorem c10_witness :
    (runMigration ⟨none, fun _ => none⟩ ⟨some [], fun _ => none⟩
      ⟨true, ["20230101120000_init"], []⟩ "migrations/20230101120000_init.sql").err
      = none :=
  (c10_skip_no_read ⟨none, fun _ => none⟩ ⟨some [], fun _ => none⟩
    ⟨true, ["20230101120000_init"], []⟩ "migrations/20230101120000_init.sql"
    rfl (by decide)).1

/-- C9: if a file's SQL executes successfully but the ledger insert fails,
`runMigration` returns the insert error, the executed SQL's effects remain
in the database, the version stays absent from the ledger, and a later run
of the same file reads and executes its SQL again. -/
theorem c9_insert_failure (env env' : Env) (fs : FS) (db : DB) (f : String)
    (stmts : List Stmt) (m : String)
    (ht : db.tableCreated = true) (hm : versionOf f ∉ db.ledger)
    (hc : fs.content f = some stmts)
    (hex : (execStmts db.effects stmts).2 = none)
    (hins : env.insertFault (versionOf f) = some m) :
    (runMigration env fs db f).err = some (.insertFailed m) ∧
    (runMigration env fs db f).db.effects = db.effects ++ (execStmts [] stmts).1 ∧
    (runMigration env fs db f).db.ledger = db.ledger ∧
    (∃ t, (runMigration env' fs (runMigration env fs db f).db f).trace =
      .queryExists (versionOf f) :: .readFile f :: .execSql f :: t) := by
  rcases runMigration_spec env fs db f with ⟨h1, hr⟩ | ⟨_, h2, hr⟩ | ⟨_, _, h3, hr⟩ |
    ⟨s, m', _, _, hc', hex', hr⟩ | ⟨s, m', _, _, hc', hex', hins', hr⟩ |
    ⟨s, _, _, hc', hex', hins', hr⟩
  · rw [h1] at ht; cases ht
  · exact absurd h2 hm
  · rw [h3] at hc; cases hc
  · rw [hc'] at hc
    obtain rfl : s = stmts := Option.some.inj hc
    rw [hex] at hex'; cases hex'
  · have hse : s = stmts := by rw [hc'] at hc; exact Option.some.inj hc
    subst hse
    rw [hins] at hins'
    obtain rfl : m' = m := (Option.some.inj hins').symm
    rw [hr]
    refine ⟨rfl, ?_, rfl, ?_⟩
    · rw [execStmts_shift]
    · exact runMigration_exec_trace ht hm hc'
  · rw [hc'] at hc
    obtain rfl : s = stmts := Option.some.inj hc
    rw [hins] at hins'; cases hins'

/-- Witness for C9 at a concrete run whose ledger insert loses the
connection. -/
theorem c9_witness :
    (runMigration ⟨none, fun v => if v = "20230101120000_one" then some "conn lost" else none⟩
      ⟨some [], fun p => if p = "d/20230101120000_one.sql" then some [.good "create t"] else none⟩
      ⟨true, [], []⟩ "d/20230101120000_one.sql").err = some (.insertFailed "conn lost") :=
  (c9_insert_failure
    ⟨none, fun v => if v = "20230101120000_one" then some "conn lost" else none⟩
    ⟨none, fun _ => none⟩
    ⟨some [], fun p => if p = "d/20230101120000_one.sql" then some [.good "create t"] else none⟩
    ⟨true, [], []⟩ "d/20230101120000_one.sql" [.good "create t"] "conn lost"
    rfl (by decide) (by decide) (by decide) (by decide)).1

/-- C3 (counterexample): a state is reachable in which a migration's SQL
effects are present without its ledger row.  A fresh run of `Migrate` on one
file whose SQL succeeds but whose ledger insert faults ends with the
statement's effect applied (`effects = ["create table t"]`) and an empty
ledger, contradicting the claimed two-way invariant. -/
theorem c3_effects_without_ledger_cex :
    (Migrate ⟨none, fun v => if v = "20230101120000_init" then some "conn lost" else none⟩
      ⟨some [⟨"20230101120000_init.sql", false⟩],
       fun p => if p = "m/20230101120000_init.sql" then some [.good "create table t"] else none⟩
      ⟨false, [], []⟩ "m").db = ⟨true, [], ["create table t"]⟩ := by
  decide

/-- C3 (amended): only the forward direction of the invariant holds: a
version newly added to the ledger by `runMigration` implies its file's SQL
was read and executed fully and successfully (and the run succeeded); the
converse fails, as SQL effects can persist without a ledger row. -/
theorem c3_amended_ledger_only_if (env : Env) (fs : FS) (db : DB) (f : String)
    (hm : versionOf f ∉ db.ledger)
    (hv : versionOf f ∈ (runMigration env fs db f).db.ledger) :
    (runMigration env fs db f).err = none ∧
    ∃ stmts, fs.content f = some stmts ∧ (execStmts db.effects stmts).2 = none ∧
      (runMigration env fs db f).db.effects = db.effects ++ (execStmts [] stmts).1 := by
  rcases runMigration_spec env fs db f with ⟨_, hr⟩ | ⟨_, h2, hr⟩ | ⟨_, _, _, hr⟩ |
    ⟨s, m, _, _, hc', hex', hr⟩ | ⟨s, m, _, _, hc', hex', hins', hr⟩ |
    ⟨s, _, _, hc', hex', hins', hr⟩
  · rw [hr] at hv; exact absurd hv hm
  · exact absurd h2 hm
  · rw [hr] at hv; exact absurd hv hm
  · rw [hr] at hv; exact absurd hv hm
  · rw [hr] at hv; exact absurd hv hm
  · rw [hr]
    exact ⟨rfl, s, hc', hex', by rw [execStmts_shift]⟩

/-- Witness for the amended C3 at a concrete successful run. -/
theorem c3_amended_witness :
    (runMigration ⟨none, fun _ => none⟩
      ⟨some [], fun p => if p = "d/20230101120000_one.sql" then some [.good "create u"] else none⟩
      ⟨true, [], []⟩ "d/20230101120000_one.sql").err = none :=
  (c3_amended_ledger_only_if ⟨none, fun _ => none⟩
    ⟨some [], fun p => if p = "d/20230101120000_one.sql" then some [.good "create u"] else none⟩
    ⟨true, [], []⟩ "d/20230101120000_one.sql" (by decide) (by decide)).1

/-- C2 (counterexample): migration files are not applied transactionally.
On a file whose first statement succeeds and whose second fails, `Migrate`
reports the execution failure but the first statement's effect persists
(final `effects = ["stmt1 effect"]`, no rollback), contradicting the claim
that no earlier statement's effect from the failing file survives. -/
theorem c2_partial_effects_cex :
    (Migrate ⟨none, fun _ => none⟩
      ⟨some [⟨"20230101120000_two.sql", false⟩],
       fun p => if p = "m/20230101120000_two.sql" then
         some [.good "stmt1 effect", .bad "syntax error"] else none⟩
      ⟨false, [], []⟩ "m") =
    ⟨⟨true, [], ["stmt1 effect"]⟩,
     [.createTable, .readDir, .queryExists "20230101120000_two",
      .readFile "m/20230101120000_two.sql", .execSql "m/20230101120000_two.sql"],
     some (.migrationFailed "m/20230101120000_two.sql" (.execFailed "syntax error"))⟩ := by
  decide

/-- C2 (amended): execution of a file is a single non-transactional
`db.Exec`: when a statement fails, `runMigration` returns the execution
error, the effects of the statements before the failing one remain applied
(appended after all previously committed effects, which are untouched), and
the ledger is unchanged. -/
theorem c2_amended_nontransactional (env : Env) (fs : FS) (db : DB) (f : String)
    (stmts : List Stmt) (m : String)
    (ht : db.tableCreated = true) (hm : versionOf f ∉ db.ledger)
    (hc : fs.content f = some stmts)
    (hex : (execStmts db.effects stmts).2 = some m) :
    (runMigration env fs db f).err = some (.execFailed m) ∧
    (runMigration env fs db f).db.effects = db.effects ++ (execStmts [] stmts).1 ∧
    (runMigration env fs db f).db.ledger = db.ledger := by
  rcases runMigration_spec env fs db f with ⟨h1, hr⟩ | ⟨_, h2, hr⟩ | ⟨_, _, h3, hr⟩ |
    ⟨s, m', _, _, hc', hex', hr⟩ | ⟨s, m', _, _, hc', hex', hins', hr⟩ |
    ⟨s, _, _, hc', hex', hins', hr⟩
  · rw [h1] at ht; cases ht
  · exact absurd h2 hm
  · rw [h3] at hc; cases hc
  · have hse : s = stmts := by rw [hc'] at hc; exact Option.some.inj hc
    subst hse
    rw [hex] at hex'
    obtain rfl : m' = m := (Option.some.inj hex').symm
    rw [hr]
    exact ⟨rfl, by rw [execStmts_shift], rfl⟩
  · have hse : s = stmts := by rw [hc'] at hc; exact Option.some.inj hc
    subst hse
    rw [hex] at hex'; cases hex'
  · have hse : s = stmts := by rw [hc'] at hc; exact Option.some.inj hc
    subst hse
    rw [hex] at hex'; cases hex'

/-- Witness for the amended C2 at a concrete two-statement file. -/
theorem c2_amended_witness :
    (runMigration ⟨none, fun _ => none⟩
      ⟨some [], fun p => if p = "m/20230101120000_two.sql" then
        some [.good "stmt1 effect", .bad "syntax error"] else none⟩
      ⟨true, [], []⟩ "m/20230101120000_two.sql").err = some (.execFailed "syntax error") :=
  (c2_amended_nontransactional ⟨none, fun _ => none⟩
    ⟨some [], fun p => if p = "m/20230101120000_two.sql" then
      some [.good "stmt1 effect", .bad "syntax error"] else none⟩
    ⟨true, [], []⟩ "m/20230101120000_two.sql" [.good "stmt1 effect", .bad "syntax error"]
    "syntax error" rfl (by decide) (by decide) (by decide)).1

/-- C1 (counterexample): `Migrate` performs no filename validation.  In a
directory holding `bad name.sql` (which violates the claimed pattern)
beside a validly named file, the run does not fail with a validation error:
it succeeds, executes the SQL of both files, and records both versions. -/
theorem c1_no_validation_cex :
    (Migrate ⟨none, fun _ => none⟩
      ⟨some [⟨"bad name.sql", false⟩, ⟨"20230101120000_init.sql", false⟩],
       fun p => if p = "migrations/20230101120000_init.sql" then some [.good "init effect"]
                else if p = "migrations/bad name.sql" then some [.good "bad effect"] else none⟩
      ⟨false, [], []⟩ "migrations").err = none ∧
    (Migrate ⟨none, fun _ => none⟩
      ⟨some [⟨"bad name.sql", false⟩, ⟨"20230101120000_init.sql", false⟩],
       fun p => if p = "migrations/20230101120000_init.sql" then some [.good "init effect"]
                else if p = "migrations/bad name.sql" then some [.good "bad effect"] else none⟩
      ⟨false, [], []⟩ "migrations").db.ledger = ["20230101120000_init", "bad name"] := by
  decide

/-- C1 (amended): `getMigrationFiles` applies no name validation: every
non-directory entry whose name ends in `.sql` — whether or not it matches
`^\d{14}_[A-Za-z0-9_]+\.sql$` — is included in the returned (sorted) list,
and `Migrate` treats it like any other migration file. -/
theorem c1_amended_no_validation (dir : String) (fs : FS) (l : List DirEntry) (e : DirEntry)
    (hent : fs.entries = some l) (he : e ∈ l) (hd : e.isDir = false)
    (hsql : hasSuffix e.name ".sql" = true) :
    ∃ files, getMigrationFiles dir fs = some files ∧ joinPath dir e.name ∈ files := by
  refine ⟨_, by rw [getMigrationFiles, hent], ?_⟩
  rw [mem_sortStrings]
  exact List.mem_map_of_mem _ (List.mem_filter.mpr ⟨he, by rw [hd, hsql]; rfl⟩)

/-- Witness for the amended C1: the invalidly named `bad name.sql` is
included in the migration list. -/
theorem c1_amended_witness :
    ∃ files,
      getMigrationFiles "migrations"
        ⟨some [⟨"bad name.sql", false⟩, ⟨"20230101120000_init.sql", false⟩], fun _ => none⟩
        = some files ∧
      joinPath "migrations" "bad name.sql" ∈ files :=
  c1_amended_no_validation "migrations"
    ⟨some [⟨"bad name.sql", false⟩, ⟨"20230101120000_init.sql", false⟩], fun _ => none⟩
    [⟨"bad name.sql", false⟩, ⟨"20230101120000_init.sql", false⟩]
    ⟨"bad name.sql", false⟩ rfl (by decide) rfl (by decide)

theorem execPaths_skiprun (vs : List String) :
    execPaths (.createTable :: .readDir :: vs.map (fun f => .queryExists (versionOf f))) = [] := by
  simp [execPaths, List.filterMap_map]

theorem readPaths_skiprun (vs : List String) :
    readPaths (.createTable :: .readDir :: vs.map (fun f => .queryExists (versionOf f))) = [] := by
  simp [readPaths, List.filterMap_map]

/-- A run over files whose versions are all recorded is a pure sequence of
ledger lookups: success, unchanged datastore. -/
theorem Migrate_all_recorded {env : Env} {fs : FS} {dir : String} {files : List String}
    (hct : env.createTableFault = none) (hg : getMigrationFiles dir fs = some files)
    (db' : DB) (ht' : db'.tableCreated = true)
    (hall : ∀ f ∈ files, versionOf f ∈ db'.ledger) :
    Migrate env fs db' dir =
      ⟨db', .createTable :: .readDir :: files.map (fun f => .queryExists (versionOf f)),
       none⟩ := by
  rw [Migrate_run db' hct hg, set_tableCreated_eq ht',
    runAll_skip_all env fs files db' ht' hall]

/-- C4: running Migrate a second time over an unchanged directory and
datastore succeeds, changes nothing, executes no migration SQL and reads no
file: every version is found in the ledger and skipped. -/
theorem c4_idempotent_second_run (env : Env) (fs : FS) (db : DB) (dir : String)
    (h : (Migrate env fs db dir).err = none) :
    (Migrate env fs (Migrate env fs db dir).db dir).err = none ∧
    (Migrate env fs (Migrate env fs db dir).db dir).db = (Migrate env fs db dir).db ∧
    execPaths (Migrate env fs (Migrate env fs db dir).db dir).trace = [] ∧
    readPaths (Migrate env fs (Migrate env fs db dir).db dir).trace = [] := by
  cases hct : env.createTableFault with
  | some m => rw [Migrate_createTable_err fs db dir hct] at h; cases h
  | none =>
    cases hg : getMigrationFiles dir fs with
    | none => rw [Migrate_readDir_err db dir hct hg] at h; cases h
    | some files =>
      have h2 := Migrate_run db hct hg
      rw [h2] at h
      have ht' : (Migrate env fs db dir).db.tableCreated = true := by
        rw [h2]
        exact runAll_tableCreated env fs files _
      have hall : ∀ f ∈ files, versionOf f ∈ (Migrate env fs db dir).db.ledger := by
        rw [h2]
        exact runAll_ok_mem env fs files _ h
      rw [Migrate_all_recorded hct hg _ ht' hall]
      exact ⟨rfl, rfl, execPaths_skiprun files, readPaths_skiprun files⟩

/-- Witness for C4 at a concrete one-file directory. -/
theorem c4_witness :
    (Migrate ⟨none, fun _ => none⟩
      ⟨some [⟨"20230101120000_init.sql", false⟩],
       fun p => if p = "m/20230101120000_init.sql" then some [.good "create t"] else none⟩
      (Migrate ⟨none, fun _ => none⟩
        ⟨some [⟨"20230101120000_init.sql", false⟩],
         fun p => if p = "m/20230101120000_init.sql" then some [.good "create t"] else none⟩
        ⟨false, [], []⟩ "m").db "m").err = none :=
  (c4_idempotent_second_run ⟨none, fun _ => none⟩
    ⟨some [⟨"20230101120000_init.sql", false⟩],
     fun p => if p = "m/20230101120000_init.sql" then some [.good "create t"] else none⟩
    ⟨false, [], []⟩ "m" (by decide)).1

/-- C6: when applying a file fails, `Migrate` returns an error naming that
file and its cause, attempts no further file (the trace ends with the
failing file's steps), leaves every earlier file recorded and every later
file untouched (the final ledger only gains versions of earlier files, and
the failing file's version is absent), and a subsequent run over the same
file list — in any environment — skips the applied prefix with pure ledger
lookups and resumes exactly at the failed file, reading it again. -/
theorem c6_fail_stop_resume (env env' : Env) (fs fs' : FS) (db : DB) (dir : String)
    (files pre post : List String) (f : String) (e : RunErr)
    (hct : env.createTableFault = none)
    (hg : getMigrationFiles dir fs = some files)
    (hsplit : files = pre ++ f :: post)
    (hpre : (runAll env fs { db with tableCreated := true } pre).err = none)
    (hfail : (runMigration env fs (runAll env fs { db with tableCreated := true } pre).db f).err
      = some e) :
    (Migrate env fs db dir).err = some (.migrationFailed f e) ∧
    (Migrate env fs db dir).trace =
      .createTable :: .readDir ::
        ((runAll env fs { db with tableCreated := true } pre).trace ++
          (runMigration env fs (runAll env fs { db with tableCreated := true } pre).db f).trace) ∧
    (∀ g ∈ pre, versionOf g ∈ (Migrate env fs db dir).db.ledger) ∧
    (∀ v ∈ (Migrate env fs db dir).db.ledger, v ∈ db.ledger ∨ v ∈ pre.map versionOf) ∧
    versionOf f ∉ (Migrate env fs db dir).db.ledger ∧
    (runAll env' fs' (Migrate env fs db dir).db files =
      ⟨(runAll env' fs' (Migrate env fs db dir).db (f :: post)).db,
       pre.map (fun g => .queryExists (versionOf g)) ++
         (runAll env' fs' (Migrate env fs db dir).db (f :: post)).trace,
       (runAll env' fs' (Migrate env fs db dir).db (f :: post)).err⟩) ∧
    (∃ t, (runMigration env' fs' (Migrate env fs db dir).db f).trace =
      .queryExists (versionOf f) :: .readFile f :: t) := by
  have hA_tc : (runAll env fs { db with tableCreated := true } pre).db.tableCreated = true :=
    runAll_tableCreated env fs pre { db with tableCreated := true }
  have hfm : versionOf f ∉ (runAll env fs { db with tableCreated := true } pre).db.ledger :=
    runMigration_err_not_mem hA_tc hfail
  have hRl : (runMigration env fs (runAll env fs { db with tableCreated := true } pre).db f).db.ledger
      = (runAll env fs { db with tableCreated := true } pre).db.ledger :=
    runMigration_ledger_of_err hfail
  have hRt : (runMigration env fs (runAll env fs { db with tableCreated := true } pre).db f).db.tableCreated
      = true := by
    rw [runMigration_tableCreated]; exact hA_tc
  have hM : Migrate env fs db dir =
      ⟨(runMigration env fs (runAll env fs { db with tableCreated := true } pre).db f).db,
       .createTable :: .readDir ::
         ((runAll env fs { db with tableCreated := true } pre).trace ++
           (runMigration env fs (runAll env fs { db with tableCreated := true } pre).db f).trace),
       some (.migrationFailed f e)⟩ := by
    rw [Migrate_run db hct hg, hsplit,
      runAll_append_ok env fs pre (f :: post) { db with tableCreated := true } hpre,
      runAll_cons_err hfail]
  have hpremem : ∀ g ∈ pre,
      versionOf g ∈ (runMigration env fs (runAll env fs { db with tableCreated := true } pre).db f).db.ledger := by
    intro g hgp
    rw [hRl]
    exact runAll_ok_mem env fs pre { db with tableCreated := true } hpre g hgp
  have hskip := runAll_skip_all env' fs' pre
    (runMigration env fs (runAll env fs { db with tableCreated := true } pre).db f).db hRt hpremem
  rw [hM]
  refine ⟨rfl, rfl, hpremem, ?_, ?_, ?_, ?_⟩
  · intro v hv
    rw [hRl] at hv
    exact runAll_ledger_sub env fs pre { db with tableCreated := true } hv
  · rw [hRl]
    exact hfm
  · rw [hsplit,
      runAll_append_ok env' fs' pre (f :: post) _ (by rw [hskip]),
      hskip]
  · refine runMigration_attempt_trace hRt ?_
    rw [hRl]
    exact hfm

/-- Witness for C6: files A, B, C where B's SQL is invalid; A is applied,
the run fails on B naming it and the SQL error. -/
theorem c6_witness :
    (Migrate ⟨none, fun _ => none⟩
      ⟨some [⟨"20230101120000_a.sql", false⟩, ⟨"20230101120001_b.sql", false⟩,
             ⟨"20230101120002_c.sql", false⟩],
       fun p => if p = "m/20230101120000_a.sql" then some [.good "table a"]
                else if p = "m/20230101120001_b.sql" then some [.bad "boom"]
                else if p = "m/20230101120002_c.sql" then some [.good "table c"] else none⟩
      ⟨false, [], []⟩ "m").err =
      some (.migrationFailed "m/20230101120001_b.sql" (.execFailed "boom")) :=
  (c6_fail_stop_resume ⟨none, fun _ => none⟩ ⟨none, fun _ => none⟩
    ⟨some [⟨"20230101120000_a.sql", false⟩, ⟨"20230101120001_b.sql", false⟩,
           ⟨"20230101120002_c.sql", false⟩],
     fun p => if p = "m/20230101120000_a.sql" then some [.good "table a"]
              else if p = "m/20230101120001_b.sql" then some [.bad "boom"]
              else if p = "m/20230101120002_c.sql" then some [.good "table c"] else none⟩
    ⟨some [⟨"20230101120000_a.sql", false⟩, ⟨"20230101120001_b.sql", false⟩,
           ⟨"20230101120002_c.sql", false⟩],
     fun p => if p = "m/20230101120000_a.sql" then some [.good "table a"]
              else if p = "m/20230101120001_b.sql" then some [.bad "boom"]
              else if p = "m/20230101120002_c.sql" then some [.good "table c"] else none⟩
    ⟨false, [], []⟩ "m"
    ["m/20230101120000_a.sql", "m/20230101120001_b.sql", "m/20230101120002_c.sql"]
    ["m/20230101120000_a.sql"] ["m/20230101120002_c.sql"]
    "m/20230101120001_b.sql" (.execFailed "boom")
    rfl (by decide) (by decide) (by decide) (by decide)).1

theorem filename_toList (ts name : String) :
    (ts ++ "_" ++ name ++ ".sql").toList
      = ts.toList ++ '_' :: (name.toList ++ ['.', 's', 'q', 'l']) := by
  simp [String.toList]

theorem matchesPattern_of_parts (ts name : String)
    (hlen : ts.toList.length = 14) (hdig : ts.toList.all Char.isDigit = true)
    (hname : nameOk name = true) :
    matchesMigrationFilePattern (ts ++ "_" ++ name ++ ".sql") = true := by
  rw [nameOk, Bool.and_eq_true] at hname
  obtain ⟨hn1, hn2⟩ := hname
  rw [matchesMigrationFilePattern, filename_toList,
    List.take_left' hlen, List.drop_left' hlen]
  have hmore : (name.toList ++ ['.', 's', 'q', 'l']).length - 4 = name.toList.length := by
    simp
  simp only [hmore, List.take_left' rfl, List.drop_left' rfl]
  simp only [hlen, hdig, hn2, hn1, Bool.and_true, Bool.true_and, decide_eq_true_eq]
  decide

/-- C8: `CreateMigration` creates `<timestamp>_<name>.sql` (in the target
directory) only when the name consists solely of word characters: any
name failing the checks yields an error outcome and no file, an existing
file of the generated name is never overwritten, and for a well-formed
name with no collision the file is created at the generated path. -/
theorem c8_create_migration (nameFlag dirFlag ts : String) (fe : String → Bool)
    (hlen : ts.toList.length = 14) (hdig : ts.toList.all Char.isDigit = true) :
    (∀ p, CreateMigration nameFlag dirFlag ts fe = .created p →
        p = joinPath dirFlag (ts ++ "_" ++ nameFlag ++ ".sql") ∧
        nameOk nameFlag = true ∧ fe p = false) ∧
    (nameOk nameFlag = false → ∀ p, CreateMigration nameFlag dirFlag ts fe ≠ .created p) ∧
    (fe (joinPath dirFlag (ts ++ "_" ++ nameFlag ++ ".sql")) = true →
        ∀ p, CreateMigration nameFlag dirFlag ts fe ≠ .created p) ∧
    (nameFlag ≠ "" → trimSpace nameFlag = nameFlag → nameOk nameFlag = true →
        fe (joinPath dirFlag (ts ++ "_" ++ nameFlag ++ ".sql")) = false →
        CreateMigration nameFlag dirFlag ts fe =
          .created (joinPath dirFlag (ts ++ "_" ++ nameFlag ++ ".sql"))) := by
  have hmain : ∀ p, CreateMigration nameFlag dirFlag ts fe = .created p →
      p = joinPath dirFlag (ts ++ "_" ++ nameFlag ++ ".sql") ∧
      nameOk nameFlag = true ∧ fe p = false := by
    intro p hp
    by_cases h0 : nameFlag = ""
    · simp [CreateMigration, h0] at hp
    · by_cases htr : trimSpace nameFlag = nameFlag
      · by_cases hn : nameOk nameFlag = true
        · by_cases hfe : fe (joinPath dirFlag (ts ++ "_" ++ nameFlag ++ ".sql")) = true
          · simp [CreateMigration, h0, htr, hn, hfe,
              matchesPattern_of_parts ts nameFlag hlen hdig hn] at hp
          · have hfe' : fe (joinPath dirFlag (ts ++ "_" ++ nameFlag ++ ".sql")) = false := by
              simpa using hfe
            simp [CreateMigration, h0, htr, hn, hfe',
              matchesPattern_of_parts ts nameFlag hlen hdig hn] at hp
            refine ⟨hp.symm, hn, ?_⟩
            rw [hp] at hfe'
            exact hfe'
        · have hn' : nameOk nameFlag = false := by simpa using hn
          simp [CreateMigration, h0, htr, hn'] at hp
      · simp [CreateMigration, h0, htr] at hp
  refine ⟨hmain, ?_, ?_, ?_⟩
  · intro hn p hp
    have := (hmain p hp).2.1
    rw [hn] at this
    cases this
  · intro hfe p hp
    obtain ⟨hpe, _, hfep⟩ := hmain p hp
    rw [hpe] at hfep
    rw [hfep] at hfe
    cases hfe
  · intro h0 htr hn hfe
    simp [CreateMigration, h0, htr, hn, hfe,
      matchesPattern_of_parts ts nameFlag hlen hdig hn]

/-- Witness for C8: a well-formed name produces the expected file. -/
theorem c8_witness :
    CreateMigration "init" "migrations" "20230101120000" (fun _ => false) =
      .created "migrations/20230101120000_init.sql" :=
  (c8_create_migration "init" "migrations" "20230101120000" (fun _ => false)
    (by decide) (by decide)).2.2.2 (by decide) (by decide) (by decide) rfl

/-! ### Digit strings: lexicographic order agrees with numeric order -/

theorem isDigit_bounds {c : Char} (h : c.isDigit = true) :
    48 ≤ c.toNat ∧ c.toNat ≤ 57 := by
  simp [Char.isDigit] at h
  exact ⟨h.1, h.2⟩

theorem digitsVal_lt_pow : ∀ l : List Char, l.all Char.isDigit = true →
    digitsVal l < 10 ^ l.length
  | [] => by intro _; simp [digitsVal]
  | c :: cs => by
    intro h
    rw [List.all_cons, Bool.and_eq_true] at h
    obtain ⟨hc, hcs⟩ := h
    have hb := isDigit_bounds hc
    have ih := digitsVal_lt_pow cs hcs
    rw [digitsVal, List.length_cons, pow_succ]
    have h9 : c.toNat - 48 ≤ 9 := by omega
    have hm : (c.toNat - 48) * 10 ^ cs.length ≤ 9 * 10 ^ cs.length :=
      Nat.mul_le_mul_right _ h9
    omega

theorem charsLe_digits : ∀ l1 l2 : List Char, l1.length = l2.length →
    l1.all Char.isDigit = true → l2.all Char.isDigit = true →
    digitsVal l1 < digitsVal l2 →
    charsLe l1 l2 = true ∧ charsLe l2 l1 = false
  | [], [] => by intro _ _ _ hv; simp [digitsVal] at hv
  | [], _ :: _ => by intro h; cases h
  | _ :: _, [] => by intro h; cases h
  | a :: as, b :: bs => by
    intro hlen h1 h2 hv
    have hlen' : as.length = bs.length := by simpa using hlen
    rw [List.all_cons, Bool.and_eq_true] at h1 h2
    obtain ⟨ha, has⟩ := h1
    obtain ⟨hb, hbs⟩ := h2
    have hab := isDigit_bounds ha
    have hbb := isDigit_bounds hb
    rw [digitsVal, digitsVal, hlen'] at hv
    rcases lt_trichotomy a b with hc | hc | hc
    · constructor
      · simp [charsLe, hc]
      · simp [charsLe, hc, lt_asymm hc]
    · subst hc
      have hv' : digitsVal as < digitsVal bs := by omega
      have ih := charsLe_digits as bs hlen' has hbs hv'
      constructor
      · simp [charsLe, lt_irrefl]
        exact ih.1
      · simp [charsLe, lt_irrefl]
        exact ih.2
    · exfalso
      have hba : b.toNat < a.toNat := by rw [Char.lt_def] at hc; exact hc
      have h2b : digitsVal bs < 10 ^ bs.length := digitsVal_lt_pow bs hbs
      have hd : b.toNat - 48 + 1 ≤ a.toNat - 48 := by omega
      have hK : (b.toNat - 48 + 1) * 10 ^ bs.length ≤ (a.toNat - 48) * 10 ^ bs.length :=
        Nat.mul_le_mul_right _ hd
      have hlt : (b.toNat - 48) * 10 ^ bs.length + digitsVal bs
          < (a.toNat - 48) * 10 ^ bs.length + digitsVal as :=
        calc (b.toNat - 48) * 10 ^ bs.length + digitsVal bs
            < (b.toNat - 48) * 10 ^ bs.length + 10 ^ bs.length :=
              Nat.add_lt_add_left h2b _
          _ = (b.toNat - 48 + 1) * 10 ^ bs.length := by ring
          _ ≤ (a.toNat - 48) * 10 ^ bs.length := hK
          _ ≤ (a.toNat - 48) * 10 ^ bs.length + digitsVal as := Nat.le_add_right _ _
      exact lt_asymm hv hlt

theorem charsLe_append_strict : ∀ (ta tb ra rb : List Char), ta.length = tb.length →
    charsLe ta tb = true → charsLe tb ta = false →
    charsLe (ta ++ ra) (tb ++ rb) = true ∧ charsLe (tb ++ rb) (ta ++ ra) = false
  | [], [], _, _ => by intro _ _ h2; simp [charsLe] at h2
  | [], _ :: _, _, _ => by intro h; cases h
  | _ :: _, [], _, _ => by intro h; cases h
  | a :: ta, b :: tb, ra, rb => by
    intro hlen h1 h2
    have hlen' : ta.length = tb.length := by simpa using hlen
    rcases lt_trichotomy a b with hc | hc | hc
    · constructor
      · simp [List.cons_append, charsLe, hc]
      · simp [List.cons_append, charsLe, hc, lt_asymm hc]
    · subst hc
      simp only [charsLe, lt_irrefl, if_false] at h1 h2
      have ih := charsLe_append_strict ta tb ra rb hlen' h1 h2
      constructor
      · simp only [List.cons_append, charsLe, lt_irrefl, if_false]
        exact ih.1
      · simp only [List.cons_append, charsLe, lt_irrefl, if_false]
        exact ih.2
    · exfalso
      simp [charsLe, lt_asymm hc, hc] at h1

/-- The timestamp prefix facts carried by a pattern match: the first 14
characters exist and are digits. -/
theorem pattern_ts_facts {a : String} (h : matchesMigrationFilePattern a = true) :
    (a.toList.take 14).length = 14 ∧ (a.toList.take 14).all Char.isDigit = true := by
  rw [matchesMigrationFilePattern] at h
  simp only [Bool.and_eq_true, decide_eq_true_eq] at h
  exact ⟨h.1.1, h.1.2⟩

/-- C5: `Migrate` applies files in the order produced by
`getMigrationFiles`, which is sorted lexicographically; joining a common
directory does not disturb the order of the filenames; and on validly named
files the lexicographic order agrees with the chronological order of the
14-digit timestamp prefixes (a strictly earlier timestamp sorts strictly
first). -/
theorem c5_order (env : Env) (fs : FS) (db : DB) (dir : String) (files : List String)
    (hg : getMigrationFiles dir fs = some files) :
    files.Pairwise (fun a b => strLe a b = true) ∧
    (∀ a b : String, strLe (joinPath dir a) (joinPath dir b) = strLe a b) ∧
    List.Sublist (execPaths (Migrate env fs db dir).trace) files ∧
    (∀ a b : String, matchesMigrationFilePattern a = true →
      matchesMigrationFilePattern b = true → tsNum a < tsNum b →
      strLe a b = true ∧ strLe b a = false) := by
  refine ⟨?_, strLe_joinPath dir, ?_, ?_⟩
  · rw [getMigrationFiles] at hg
    cases hent : fs.entries with
    | none => rw [hent] at hg; cases hg
    | some l =>
      rw [hent] at hg
      obtain rfl : files = sortStrings _ := (Option.some.inj hg).symm
      exact sortStrings_sorted _
  · cases hct : env.createTableFault with
    | some m =>
      rw [Migrate_createTable_err fs db dir hct]
      exact List.nil_sublist files
    | none =>
      rw [Migrate_run db hct hg]
      exact runAll_execPaths env fs files _
  · intro a b hpa hpb hts
    obtain ⟨hla, hda⟩ := pattern_ts_facts hpa
    obtain ⟨hlb, hdb⟩ := pattern_ts_facts hpb
    have hdig := charsLe_digits (a.toList.take 14) (b.toList.take 14)
      (by rw [hla, hlb]) hda hdb hts
    have happ := charsLe_append_strict (a.toList.take 14) (b.toList.take 14)
      (a.toList.drop 14) (b.toList.drop 14) (by rw [hla, hlb]) hdig.1 hdig.2
    rw [strLe, strLe, ← List.take_append_drop 14 a.toList, ← List.take_append_drop 14 b.toList]
    exact happ

/-- Witness for C5: two out-of-order directory entries come back sorted. -/
theorem c5_witness :
    (["m/20230101120000_a.sql", "m/20230101120001_b.sql"] : List String).Pairwise
      (fun a b => strLe a b = true) :=
  (c5_order ⟨none, fun _ => none⟩
    ⟨some [⟨"20230101120001_b.sql", false⟩, ⟨"20230101120000_a.sql", false⟩], fun _ => none⟩
    ⟨false, [], []⟩ "m" ["m/20230101120000_a.sql", "m/20230101120001_b.sql"]
    (by decide)).1
